import Mathlib

/-!
Verification of the priority-and-status reassignment algorithm of
`src/server.js` (the `PUT /api/v1/clients/:id` handler and its helpers).

The embedding is a direct translation of the JavaScript:

* A `Client` is a row of the `clients` table.  `status` is an
  `Option String` because the handler assigns `req.body.status` — which can
  be `undefined` — straight into `client.status`; a row loaded from the
  database always carries `some s`.  JavaScript numbers are embedded as `ℚ`
  (every value the handler manipulates — integers below 2^53 and halves —
  is exact in double precision, so `ℚ` is a faithful model).
* `Array.prototype.sort` with comparator `(a, b) => a.priority - b.priority`
  is a stable ascending sort by priority; it is embedded as
  `List.insertionSort` by `priorityLe`, which is stable and agrees with any
  stable sort on the inputs that occur here.
* In-place mutation of the shared client objects is embedded by computing
  the final value of every object and rebuilding the `clients` array with
  `List.map` (`applyById`): the response body `clients` is the same array
  whose elements were mutated, so each element's final value is its
  renumbered version when it was pushed into a lane list, and itself
  otherwise.
* The Express handler is `putClient`; its observable effects (responses
  sent, rows written by the batch `UPDATE`, and whether the handler throws
  a `TypeError` by dereferencing an `undefined` client) are collected in a
  `PutOutcome`.
-/

/-- A row of the `clients` table, as the handler sees it after
`db.prepare("select * from clients").all()`. -/
structure Client where
  id : Int
  name : String
  description : String
  status : Option String
  priority : ℚ
deriving Repr, DecidableEq

/-- The three lane names accepted by the handler (line 144 of
`src/server.js`). -/
def validStatuses : List String := ["backlog", "in-progress", "complete"]

/-- JavaScript truthiness of `req.body.status` (a string or `undefined`):
`undefined` and the empty string are falsy. -/
def statusTruthy : Option String → Bool
  | none => false
  | some s => s ≠ ""

/-- JavaScript truthiness of `req.body.priority` (a number or `undefined`):
`undefined` and `0` are falsy. -/
def priorityTruthy : Option ℚ → Bool
  | none => false
  | some q => q ≠ 0

/-- JavaScript constant `Number.MAX_SAFE_INTEGER`, used by the handler as an "append at the
end" sentinel priority (line 183). -/
def MAX_SAFE_INTEGER : ℚ := 9007199254740991

/-- The comparator `(a, b) => a.priority - b.priority` of
`clientsWithSame*Status.sort(...)`: ascending order of `priority`. -/
def priorityLe (a b : Client) : Prop := a.priority ≤ b.priority

instance : DecidableRel priorityLe := fun a b =>
  inferInstanceAs (Decidable (a.priority ≤ b.priority))

instance : IsTotal Client priorityLe := ⟨fun a b => le_total a.priority b.priority⟩

instance : IsTrans Client priorityLe := ⟨fun _ _ _ h h' => le_trans h h'⟩

/-- The stable ascending sort `xs.sort((a, b) => a.priority - b.priority)`. -/
def sortByPriority (l : List Client) : List Client := l.insertionSort priorityLe

/-- The renumbering pass `xs.forEach((c, index) => (c.priority = index + 1))`,
started at `k` (the handler always starts at 1). -/
def renumberFrom (k : Nat) : List Client → List Client
  | [] => []
  | c :: cs => { c with priority := (k : ℚ) } :: renumberFrom (k + 1) cs

/-- Renumbering pass `xs.forEach((c, index) => (c.priority = index + 1))`. -/
def renumber (l : List Client) : List Client := renumberFrom 1 l

/-- Final value of the shared object `c` after the handler mutated the lane
lists: if some renumbered lane entry has `c`'s id, `c` was that object and
now carries the renumbered fields; otherwise `c` was never touched. -/
def applyById (updates : List Client) (c : Client) : Client :=
  (updates.find? (fun d => d.id == c.id)).getD c

/-- Result of lines 154–201 of `src/server.js`: the full (mutated) `clients`
array that is sent back, and the `updatedClients` array that the batch
`UPDATE` writes to the database. -/
structure ReorderResult where
  clients : List Client
  updatedClients : List Client
deriving Repr, DecidableEq

/-- Lines 154–201 of `src/server.js`: the reordering engine.  `client` is
the row found for the requested id, `status` and `priority` come from
`req.body`. -/
def reorderCore (clients : List Client) (client : Client)
    (status : Option String) (priority : Option ℚ) : ReorderResult :=
  let newStatus := status
  let oldStatus := client.status
  let oldPriority := client.priority
  let shouldReorderPriority :=
    priorityTruthy priority && (priority != some oldPriority)
  -- lines 163–169: grouping with an `else if`, so when
  -- `oldStatus === newStatus` every lane member lands in
  -- `clientsWithSameOldStatus` and `clientsWithSameNewStatus` stays empty
  let clientsWithSameOldStatus := clients.filter (fun c => c.status == oldStatus)
  let clientsWithSameNewStatus :=
    clients.filter (fun c => c.status != oldStatus && c.status == newStatus)
  if (oldStatus == newStatus) && shouldReorderPriority then
    -- Case 1 (lines 172–178): same status, different priority
    let client1 : Client := { client with priority := priority.getD 0 - 1/2 }
    let newLane := renumber (sortByPriority (clientsWithSameNewStatus ++ [client1]))
    let clients1 := clients.map (applyById newLane)
    { clients := clients1,
      updatedClients :=
        clients1.filter (fun c => c.status != oldStatus && c.status != newStatus)
          ++ clientsWithSameOldStatus.map (applyById newLane) ++ newLane }
  else if oldStatus != newStatus then
    -- Case 2 (lines 181–193): status changed
    let client1 : Client :=
      { client with
        status := newStatus,
        priority :=
          if priorityTruthy priority then priority.getD 0 - 1/2
          else MAX_SAFE_INTEGER }
    let oldLane :=
      renumber (sortByPriority
        (clientsWithSameOldStatus.filter (fun c => c.id != client.id)))
    let newLane := renumber (sortByPriority (clientsWithSameNewStatus ++ [client1]))
    let clients1 := clients.map (applyById (oldLane ++ newLane))
    { clients := clients1,
      updatedClients :=
        clients1.filter (fun c => c.status != oldStatus && c.status != newStatus)
          ++ oldLane ++ newLane }
  else
    -- neither case fires: nothing was mutated
    { clients := clients,
      updatedClients :=
        clients.filter (fun c => c.status != oldStatus && c.status != newStatus)
          ++ clientsWithSameOldStatus ++ clientsWithSameNewStatus }

/-- The `messageObj` payloads of the handler's 400 responses. -/
structure MessageObj where
  message : String
  long_message : String
deriving Repr, DecidableEq

/-- Result of `validateId` (lines 26–51).  The id comes from
`parseInt(req.params.id, 10)`; the `Number.isNaN` branch concerns
non-numeric path parameters, which are outside this model, so `id : Int`
is always a number and only the lookup branch remains. -/
def validateId (store : List Client) (id : Int) : Option MessageObj :=
  match store.find? (fun c => c.id == id) with
  | none => some ⟨"Invalid id provided.", "Cannot find client with that id."⟩
  | some _ => none

/-- One observable response of the handler: an error send
`res.status(code).send(messageObj)` or the success send
`res.status(200).send(clients)`. -/
inductive SentItem where
  | errorSend (code : Nat) (body : MessageObj) : SentItem
  | okClients (clients : List Client) : SentItem
deriving Repr, DecidableEq

/-- Everything observable about one run of the PUT handler: the responses
sent in order, the rows passed to the batch `UPDATE` (in order), and
whether the handler threw (dereferencing the `undefined` result of
`clients.find` when the id is unknown, line 155). -/
structure PutOutcome where
  sent : List SentItem
  writes : List Client
  crashed : Bool
deriving Repr, DecidableEq

/-- Lines 130–214 of `src/server.js`: the `PUT /api/v1/clients/:id` handler.
`store` is the current contents of the `clients` table.  Note that the
failed-`validateId` branch sends a 400 but does not `return`, so execution
falls through exactly as in the source. -/
def putClient (store : List Client) (id : Int)
    (status : Option String) (priority : Option ℚ) : PutOutcome :=
  let sent0 : List SentItem :=
    match validateId store id with
    | some m => [.errorSend 400 m]
    | none => []
  let clients := store
  let clientOpt := clients.find? (fun c => c.id == id)
  if statusTruthy status && !(validStatuses.contains (status.getD "")) then
    { sent := sent0 ++
        [.errorSend 400
          ⟨"Invalid status provided",
           "Status can only be one of the following: [backlog | in-progress | complete]"⟩],
      writes := [], crashed := false }
  else
    match clientOpt with
    | none => { sent := sent0, writes := [], crashed := true }
    | some client =>
      let r := reorderCore clients client status priority
      { sent := sent0 ++ [.okClients r.clients],
        writes := r.updatedClients, crashed := false }

/-- Effect of the batch `UPDATE clients SET status = ?, priority = ? WHERE
id = ?` statements on the stored table, applied in order. -/
def applyWrites (store : List Client) (ws : List Client) : List Client :=
  ws.foldl
    (fun acc w =>
      acc.map (fun c =>
        if c.id == w.id then { c with status := w.status, priority := w.priority }
        else c))
    store

/-- Priorities of the members of a list, in order. -/
abbrev prios (l : List Client) : List ℚ := l.map (·.priority)

/-- The lane of `s`: the clients whose status is `s`, in list order. -/
def lane (l : List Client) (s : Option String) : List Client :=
  l.filter (fun c => c.status == s)

/-- The list `[1, 2, ..., n]` of rationals. -/
abbrev rangePrios (n : ℕ) : List ℚ :=
  List.map (fun i : ℕ => (i : ℚ) + 1) (List.range n)

/-- A lane is densely numbered when its priorities are exactly
`1, 2, ..., n` (as a multiset), `n` its number of members. -/
abbrev laneDense (l : List Client) : Prop :=
  (prios l).Perm (rangePrios l.length)

/-- The ids of the clients are pairwise distinct (the `id` column is the
primary key of the `clients` table). -/
abbrev idsNodup (l : List Client) : Prop := (l.map (·.id)).Nodup

/-- Client lookup by id, as `clients.find((client) => client.id === id)`. -/
def lookupId (l : List Client) (i : Int) : Option Client :=
  l.find? (fun c => c.id == i)

/-! ### Generic lemmas about lookups, sorting and renumbering -/

/-- Number of members of `l` whose priority is strictly below `q`. -/
def countLt (l : List Client) (q : ℚ) : ℕ :=
  l.countP (fun d => decide (d.priority < q))

theorem countLt_of_perm {l l' : List Client} (h : l.Perm l') (q : ℚ) :
    countLt l q = countLt l' q :=
  h.countP_eq _

theorem countLt_append (l l' : List Client) (q : ℚ) :
    countLt (l ++ l') q = countLt l q + countLt l' q :=
  List.countP_append _ _ _

theorem idsNodup_inj {l : List Client} (hid : idsNodup l) {a b : Client}
    (ha : a ∈ l) (hb : b ∈ l) (h : a.id = b.id) : a = b := by
  induction l with
  | nil => cases ha
  | cons x t ih =>
    have h' : (∀ y ∈ t, ¬y.id = x.id) ∧ (t.map (·.id)).Nodup := by
      simpa [idsNodup] using hid
    rcases List.mem_cons.mp ha with rfl | hat
    · rcases List.mem_cons.mp hb with rfl | hbt
      · rfl
      · exact absurd h.symm (h'.1 b hbt)
    · rcases List.mem_cons.mp hb with rfl | hbt
      · exact absurd h (h'.1 a hat)
      · exact ih h'.2 hat hbt

theorem lookupId_map_eq_some {l : List Client} (f : Client → Client) {c : Client}
    (hid : idsNodup l) (hf : ∀ d, (f d).id = d.id) (hc : c ∈ l) :
    lookupId (l.map f) c.id = some (f c) := by
  induction l with
  | nil => cases hc
  | cons a t ih =>
    have h' : (∀ y ∈ t, ¬y.id = a.id) ∧ (t.map (·.id)).Nodup := by
      simpa [idsNodup] using hid
    rcases List.mem_cons.mp hc with rfl | hct
    · unfold lookupId
      rw [List.map_cons, List.find?_cons_of_pos]
      simp [hf]
    · have hna : a.id ≠ c.id := fun h => (h'.1 c hct) h.symm
      unfold lookupId
      rw [List.map_cons, List.find?_cons_of_neg]
      · exact ih h'.2 hct
      · simp [hf, hna]

theorem lookupId_eq_self {l : List Client} {c : Client}
    (hid : idsNodup l) (hc : c ∈ l) : lookupId l c.id = some c := by
  have := lookupId_map_eq_some (fun d => d) hid (fun _ => rfl) hc
  simpa using this

theorem lookupId_eq_none {l : List Client} {i : Int}
    (h : ∀ d ∈ l, d.id ≠ i) : lookupId l i = none :=
  List.find?_eq_none.mpr (fun x hx => by simpa using h x hx)

theorem applyById_id (u : List Client) (c : Client) :
    (applyById u c).id = c.id := by
  unfold applyById
  cases hf : u.find? (fun d => d.id == c.id) with
  | none => rfl
  | some d =>
    have := List.find?_some hf
    simpa using this

theorem mem_renumberFrom {k : Nat} {l : List Client} {d : Client}
    (hd : d ∈ renumberFrom k l) :
    ∃ c ∈ l, d.id = c.id ∧ d.status = c.status := by
  induction l generalizing k with
  | nil => cases hd
  | cons c cs ih =>
    rcases List.mem_cons.mp hd with rfl | h
    · exact ⟨c, List.mem_cons_self _ _, rfl, rfl⟩
    · rcases ih h with ⟨e, he, h1, h2⟩
      exact ⟨e, List.mem_cons_of_mem _ he, h1, h2⟩

theorem sortByPriority_perm (l : List Client) : (sortByPriority l).Perm l :=
  List.perm_insertionSort _ l

theorem mem_renumber_sort {l : List Client} {d : Client}
    (hd : d ∈ renumber (sortByPriority l)) :
    ∃ c ∈ l, d.id = c.id ∧ d.status = c.status := by
  rcases mem_renumberFrom hd with ⟨e, he, h1, h2⟩
  exact ⟨e, (sortByPriority_perm l).mem_iff.mp he, h1, h2⟩

theorem pairwise_lt_of_le_nodup {l : List Client}
    (hle : l.Pairwise priorityLe) (hp : (prios l).Nodup) :
    l.Pairwise (fun a b => a.priority < b.priority) := by
  have hne : l.Pairwise (fun a b => a.priority ≠ b.priority) :=
    List.pairwise_map.mp hp
  exact (hle.and hne).imp (fun h => lt_of_le_of_ne h.1 h.2)

theorem renumberFrom_eq_map (k : Nat) (l : List Client)
    (h : l.Pairwise (fun a b => a.priority < b.priority)) :
    renumberFrom k l
      = l.map (fun c => { c with priority := (k : ℚ) + (countLt l c.priority : ℚ) }) := by
  induction l generalizing k with
  | nil => rfl
  | cons c cs ih =>
    rcases List.pairwise_cons.mp h with ⟨hc, hcs⟩
    have h0 : countLt (c :: cs) c.priority = 0 := by
      unfold countLt
      rw [List.countP_cons]
      have h1 : cs.countP (fun d => decide (d.priority < c.priority)) = 0 :=
        List.countP_eq_zero.mpr (fun a ha => by
          simp only [decide_eq_true_eq]
          exact not_lt.mpr (le_of_lt (hc a ha)))
      simp [h1]
    have htail : ∀ d ∈ cs,
        countLt (c :: cs) d.priority = countLt cs d.priority + 1 := by
      intro d hd
      unfold countLt
      rw [List.countP_cons]
      simp [hc d hd]
    rw [renumberFrom, ih (k + 1) hcs, List.map_cons, h0]
    refine congrArg₂ _ (by norm_num) ?_
    refine List.map_congr_left (fun d hd => ?_)
    rw [htail d hd]
    have : ((k + 1 : ℕ) : ℚ) + (countLt cs d.priority : ℚ)
        = (k : ℚ) + ((countLt cs d.priority + 1 : ℕ) : ℚ) := by
      push_cast
      ring
    rw [this]

theorem idsNodup_of_perm {l l' : List Client} (h : l.Perm l')
    (hid : idsNodup l) : idsNodup l' :=
  (h.map (·.id)).nodup hid

theorem idsNodup_filter {l : List Client} (p : Client → Bool)
    (hid : idsNodup l) : idsNodup (l.filter p) :=
  ((List.filter_sublist l).map (·.id)).nodup hid

theorem renumber_eq_map {l : List Client}
    (h : l.Pairwise (fun a b => a.priority < b.priority)) :
    renumber l
      = l.map (fun c => { c with priority := (1 : ℚ) + (countLt l c.priority : ℚ) }) := by
  rw [renumber, renumberFrom_eq_map 1 _ h]
  simp only [Nat.cast_one]

theorem renumber_sort_lookup {l : List Client} {c : Client}
    (hp : (prios l).Nodup) (hid : idsNodup l) (hc : c ∈ l) :
    lookupId (renumber (sortByPriority l)) c.id
      = some { c with priority := (1 : ℚ) + (countLt l c.priority : ℚ) } := by
  have hperm : (sortByPriority l).Perm l := sortByPriority_perm l
  have hpnodup : (prios (sortByPriority l)).Nodup :=
    ((hperm.map (·.priority)).symm).nodup hp
  have hlt : (sortByPriority l).Pairwise (fun a b => a.priority < b.priority) :=
    pairwise_lt_of_le_nodup (List.sorted_insertionSort _ l) hpnodup
  have hids : idsNodup (sortByPriority l) := idsNodup_of_perm hperm.symm hid
  have hcs : c ∈ sortByPriority l := hperm.mem_iff.mpr hc
  rw [renumber_eq_map hlt]
  have hmap := lookupId_map_eq_some
    (fun d => { d with priority := (1 : ℚ) + (countLt (sortByPriority l) d.priority : ℚ) })
    hids (fun _ => rfl) hcs
  rw [hmap]
  simp only [countLt_of_perm hperm]

theorem perm_cons_filter_id {l : List Client} {tgt : Client}
    (hid : idsNodup l) (htgt : tgt ∈ l) :
    l.Perm (tgt :: l.filter (fun c => c.id != tgt.id)) := by
  induction l with
  | nil => cases htgt
  | cons a t ih =>
    have h' : (∀ y ∈ t, ¬y.id = a.id) ∧ (t.map (·.id)).Nodup := by
      simpa [idsNodup] using hid
    rcases List.mem_cons.mp htgt with rfl | ht
    · have hfe : t.filter (fun c => c.id != tgt.id) = t :=
        List.filter_eq_self.mpr (fun c hc => by simpa using h'.1 c hc)
      rw [List.filter_cons]
      simp [hfe]
    · have hne : a.id ≠ tgt.id := by
        intro hEq
        exact (h'.1 tgt ht) hEq.symm
      have hstep := ih h'.2 ht
      have hfc : List.filter (fun c => c.id != tgt.id) (a :: t)
          = a :: List.filter (fun c => c.id != tgt.id) t := by
        rw [List.filter_cons, if_pos (by simpa using hne)]
      rw [hfc]
      exact (hstep.cons a).trans (List.Perm.swap tgt a _)

theorem countP_range_lt (m k : ℕ) :
    (List.range m).countP (fun i => decide (i < k)) = min k m := by
  induction m with
  | zero => simp
  | succ m ih =>
    rw [List.range_succ, List.countP_append, ih]
    by_cases h : m < k <;> simp [h] <;> omega

/-! ### Lemmas about densely numbered lanes -/

theorem laneDense_prios_nodup {l : List Client} (h : laneDense l) :
    (prios l).Nodup := by
  refine h.symm.nodup (List.Nodup.map ?_ (List.nodup_range _))
  intro a b hab
  have h1 : (a : ℚ) + 1 = (b : ℚ) + 1 := hab
  have h2 : (a : ℚ) = (b : ℚ) := by linarith
  exact_mod_cast h2

theorem laneDense_mem {l : List Client} (h : laneDense l) {c : Client}
    (hc : c ∈ l) : ∃ j : ℕ, j < l.length ∧ c.priority = (j : ℚ) + 1 := by
  have h1 : c.priority ∈ prios l := List.mem_map_of_mem (·.priority) hc
  have h2 := h.mem_iff.mp h1
  rcases List.mem_map.mp h2 with ⟨j, hj, hEq⟩
  exact ⟨j, List.mem_range.mp hj, hEq.symm⟩

theorem laneDense_countLt {l : List Client} (h : laneDense l) (q : ℚ) :
    countLt l q
      = (List.range l.length).countP (fun i : ℕ => decide ((i : ℚ) + 1 < q)) := by
  have h1 : countLt l q = (prios l).countP (fun x => decide (x < q)) := by
    unfold countLt
    rw [List.countP_map]
    rfl
  rw [h1, List.Perm.countP_eq _ h, List.countP_map]
  rfl

theorem laneDense_countLt_mem {l : List Client} (h : laneDense l) {c : Client}
    (hc : c ∈ l) : (1 : ℚ) + (countLt l c.priority : ℚ) = c.priority := by
  rcases laneDense_mem h hc with ⟨j, hj, hp⟩
  rw [hp, laneDense_countLt h]
  have hcong : (List.range l.length).countP (fun i : ℕ => decide ((i : ℚ) + 1 < (j : ℚ) + 1))
      = (List.range l.length).countP (fun i => decide (i < j)) := by
    refine List.countP_congr (fun i _ => ?_)
    simp only [decide_eq_true_eq]
    constructor
    · intro h'
      exact_mod_cast (by linarith : (i : ℚ) < (j : ℚ))
    · intro h'
      have : (i : ℚ) < (j : ℚ) := by exact_mod_cast h'
      linarith
  rw [hcong, countP_range_lt, min_eq_left (le_of_lt hj)]
  ring

theorem laneDense_countLt_ge {l : List Client} (h : laneDense l) {q : ℚ}
    (hq : (l.length : ℚ) < q) : countLt l q = l.length := by
  rw [laneDense_countLt h]
  have hall : ∀ i ∈ List.range l.length,
      (fun i : ℕ => decide ((i : ℚ) + 1 < q)) i = true := by
    intro i hi
    have h1 : i < l.length := List.mem_range.mp hi
    have h2 : (i : ℚ) + 1 ≤ (l.length : ℚ) := by exact_mod_cast h1
    simp only [decide_eq_true_eq]
    linarith
  rw [List.countP_eq_length.mpr hall, List.length_range]

theorem laneDense_countLt_half {l : List Client} (h : laneDense l) (P : ℕ) :
    countLt l ((P : ℚ) - 1/2) = min (P - 1) l.length := by
  rw [laneDense_countLt h]
  have hcong : (List.range l.length).countP (fun i : ℕ => decide ((i : ℚ) + 1 < (P : ℚ) - 1/2))
      = (List.range l.length).countP (fun i => decide (i < P - 1)) := by
    refine List.countP_congr (fun i _ => ?_)
    simp only [decide_eq_true_eq]
    constructor
    · intro h'
      have h2 : (2 * i + 3 : ℚ) < 2 * P := by linarith
      have h3 : (2 * i + 3 : ℕ) < 2 * P := by exact_mod_cast h2
      omega
    · intro h'
      have h2 : 2 * i + 4 ≤ 2 * P := by omega
      have h3 : (2 * i + 4 : ℚ) ≤ 2 * P := by exact_mod_cast h2
      linarith
  rw [hcong, countP_range_lt]

theorem half_ne_add_one (P j : ℕ) : (j : ℚ) + 1 ≠ (P : ℚ) - 1/2 := by
  intro hEq
  have h2 : (2 * j + 3 : ℚ) = 2 * P := by linarith
  have h3 : (2 * j + 3 : ℕ) = 2 * P := by exact_mod_cast h2
  omega

/-! ### Case 2 (status change): named intermediates and lookup laws

The following definitions name the let-bound intermediates of
`reorderCore`'s Case 2 so the lemmas can speak about them; each is
literally the corresponding expression of `reorderCore`. -/

/-- The `clientsWithSameOldStatus` group of `reorderCore`. -/
def sameOldOf (store : List Client) (tgt : Client) : List Client :=
  store.filter (fun c => c.status == tgt.status)

/-- The `clientsWithSameNewStatus` group of `reorderCore`. -/
def sameNewOf (store : List Client) (tgt : Client) (ns : Option String) : List Client :=
  store.filter (fun c => c.status != tgt.status && c.status == ns)

/-- The mutated target of Case 2 (lines 182–183 of `src/server.js`). -/
def moveTarget (tgt : Client) (ns : Option String) (rp : Option ℚ) : Client :=
  { tgt with
    status := ns,
    priority := if priorityTruthy rp then rp.getD 0 - 1/2 else MAX_SAFE_INTEGER }

/-- The renumbered old lane of Case 2 (lines 185–189). -/
def oldLaneOf (store : List Client) (tgt : Client) : List Client :=
  renumber (sortByPriority ((sameOldOf store tgt).filter (fun c => c.id != tgt.id)))

/-- The renumbered new lane of Case 2 (lines 191–193). -/
def newLaneOf (store : List Client) (tgt : Client) (ns : Option String)
    (rp : Option ℚ) : List Client :=
  renumber (sortByPriority (sameNewOf store tgt ns ++ [moveTarget tgt ns rp]))

theorem reorderCore_clients_case2 (store : List Client) (tgt : Client)
    (ns : Option String) (rp : Option ℚ) (h : ns ≠ tgt.status) :
    (reorderCore store tgt ns rp).clients
      = store.map (applyById (oldLaneOf store tgt ++ newLaneOf store tgt ns rp)) := by
  have hbeq : (tgt.status == ns) = false := beq_eq_false_iff_ne.mpr (Ne.symm h)
  unfold reorderCore oldLaneOf newLaneOf sameOldOf sameNewOf moveTarget
  simp [hbeq, bne]

theorem idsNodup_sameNew_snoc {store : List Client} {tgt : Client}
    {ns : Option String} (rp : Option ℚ)
    (hid : idsNodup store) (htgt : tgt ∈ store) :
    idsNodup (sameNewOf store tgt ns ++ [moveTarget tgt ns rp]) := by
  have h1 : idsNodup (sameNewOf store tgt ns) := idsNodup_filter _ hid
  have h2 : ∀ e ∈ sameNewOf store tgt ns, e.id ≠ tgt.id := by
    intro e he hEq
    have hm := List.mem_filter.mp he
    have : e = tgt := idsNodup_inj hid hm.1 htgt hEq
    subst this
    simp at hm
  simp only [idsNodup, List.map_append, List.map_cons, List.map_nil]
  rw [List.nodup_append]
  refine ⟨h1, List.nodup_singleton _, ?_⟩
  intro x hx hx2
  rcases List.mem_map.mp hx with ⟨e, he, rfl⟩
  have : e.id = (moveTarget tgt ns rp).id := by simpa using hx2
  exact h2 e he this

theorem case2_lookup_old {store : List Client} {tgt c : Client}
    {ns : Option String} (rp : Option ℚ)
    (hid : idsNodup store) (hns : ns ≠ tgt.status)
    (hpOld : (prios ((sameOldOf store tgt).filter (fun d => d.id != tgt.id))).Nodup)
    (hc : c ∈ store) (hcs : c.status = tgt.status) (hcid : c.id ≠ tgt.id) :
    lookupId (reorderCore store tgt ns rp).clients c.id
      = some { c with priority :=
          (1 : ℚ) + (countLt ((sameOldOf store tgt).filter (fun d => d.id != tgt.id))
            c.priority : ℚ) } := by
  rw [reorderCore_clients_case2 store tgt ns rp hns]
  rw [lookupId_map_eq_some _ hid (applyById_id _) hc]
  have hcl : c ∈ (sameOldOf store tgt).filter (fun d => d.id != tgt.id) := by
    rw [List.mem_filter]
    refine ⟨List.mem_filter.mpr ⟨hc, by simp [hcs]⟩, by simpa using hcid⟩
  have hfound : lookupId (oldLaneOf store tgt) c.id
      = some { c with priority :=
          (1 : ℚ) + (countLt ((sameOldOf store tgt).filter (fun d => d.id != tgt.id))
            c.priority : ℚ) } :=
    renumber_sort_lookup hpOld (idsNodup_filter _ (idsNodup_filter _ hid)) hcl
  unfold applyById
  rw [List.find?_append]
  have : List.find? (fun d => d.id == c.id) (oldLaneOf store tgt) = lookupId (oldLaneOf store tgt) c.id := rfl
  rw [this, hfound]
  rfl

theorem case2_lookup_new {store : List Client} {tgt c : Client}
    {ns : Option String} (rp : Option ℚ)
    (hid : idsNodup store) (htgt : tgt ∈ store) (hns : ns ≠ tgt.status)
    (hpNew : (prios (sameNewOf store tgt ns ++ [moveTarget tgt ns rp])).Nodup)
    (hc : c ∈ store) (hcs : c.status = ns) :
    lookupId (reorderCore store tgt ns rp).clients c.id
      = some { c with priority :=
          (1 : ℚ) + (countLt (sameNewOf store tgt ns ++ [moveTarget tgt ns rp])
            c.priority : ℚ) } := by
  rw [reorderCore_clients_case2 store tgt ns rp hns]
  rw [lookupId_map_eq_some _ hid (applyById_id _) hc]
  have hnone : List.find? (fun d => d.id == c.id) (oldLaneOf store tgt) = none := by
    refine List.find?_eq_none.mpr (fun d hd => ?_)
    rcases mem_renumber_sort hd with ⟨e, he, hde, _⟩
    rcases List.mem_filter.mp he with ⟨he2, _⟩
    rcases List.mem_filter.mp he2 with ⟨he3, he4⟩
    simp only [beq_iff_eq, ne_eq]
    intro hEq
    have : e = c := idsNodup_inj hid he3 hc (hde ▸ hEq)
    subst this
    have : e.status = tgt.status := by simpa using he4
    exact hns (by rw [← hcs, this])
  have hcl : c ∈ sameNewOf store tgt ns ++ [moveTarget tgt ns rp] := by
    refine List.mem_append.mpr (Or.inl ?_)
    refine List.mem_filter.mpr ⟨hc, ?_⟩
    have h1 : c.status ≠ tgt.status := by rw [hcs]; exact hns
    simp [hcs, h1, hns]
  have hfound : lookupId (newLaneOf store tgt ns rp) c.id
      = some { c with priority :=
          (1 : ℚ) + (countLt (sameNewOf store tgt ns ++ [moveTarget tgt ns rp])
            c.priority : ℚ) } :=
    renumber_sort_lookup hpNew (idsNodup_sameNew_snoc rp hid htgt) hcl
  unfold applyById
  rw [List.find?_append, hnone, Option.none_or]
  have : List.find? (fun d => d.id == c.id) (newLaneOf store tgt ns rp)
      = lookupId (newLaneOf store tgt ns rp) c.id := rfl
  rw [this, hfound]
  rfl

theorem case2_lookup_target {store : List Client} {tgt : Client}
    {ns : Option String} (rp : Option ℚ)
    (hid : idsNodup store) (htgt : tgt ∈ store) (hns : ns ≠ tgt.status)
    (hpNew : (prios (sameNewOf store tgt ns ++ [moveTarget tgt ns rp])).Nodup) :
    lookupId (reorderCore store tgt ns rp).clients tgt.id
      = some { tgt with
          status := ns,
          priority :=
            (1 : ℚ) + (countLt (sameNewOf store tgt ns ++ [moveTarget tgt ns rp])
              (moveTarget tgt ns rp).priority : ℚ) } := by
  rw [reorderCore_clients_case2 store tgt ns rp hns]
  rw [lookupId_map_eq_some _ hid (applyById_id _) htgt]
  have hnone : List.find? (fun d => d.id == tgt.id) (oldLaneOf store tgt) = none := by
    refine List.find?_eq_none.mpr (fun d hd => ?_)
    rcases mem_renumber_sort hd with ⟨e, he, hde, _⟩
    rcases List.mem_filter.mp he with ⟨_, he4⟩
    simp only [beq_iff_eq]
    intro hEq
    rw [hde] at hEq
    simp [hEq] at he4
  have hcl : moveTarget tgt ns rp ∈ sameNewOf store tgt ns ++ [moveTarget tgt ns rp] :=
    List.mem_append.mpr (Or.inr (List.mem_singleton.mpr rfl))
  have hfound : lookupId (newLaneOf store tgt ns rp) (moveTarget tgt ns rp).id
      = some { moveTarget tgt ns rp with priority :=
          (1 : ℚ) + (countLt (sameNewOf store tgt ns ++ [moveTarget tgt ns rp])
            (moveTarget tgt ns rp).priority : ℚ) } :=
    renumber_sort_lookup hpNew (idsNodup_sameNew_snoc rp hid htgt) hcl
  unfold applyById
  rw [List.find?_append, hnone, Option.none_or]
  have hidm : (moveTarget tgt ns rp).id = tgt.id := rfl
  have : List.find? (fun d => d.id == tgt.id) (newLaneOf store tgt ns rp)
      = lookupId (newLaneOf store tgt ns rp) (moveTarget tgt ns rp).id := rfl
  rw [this, hfound]
  rfl

/-! ### Density arithmetic for the two lanes of Case 2 -/

theorem sameOldOf_eq_lane (store : List Client) (tgt : Client) :
    sameOldOf store tgt = lane store tgt.status := rfl

theorem sameNewOf_eq_lane {store : List Client} {tgt : Client}
    {ns : Option String} (hns : ns ≠ tgt.status) :
    sameNewOf store tgt ns = lane store ns := by
  refine List.filter_congr (fun c _ => ?_)
  by_cases h : c.status = ns
  · have h1 : c.status ≠ tgt.status := by rw [h]; exact hns
    simp [h, h1, hns]
  · simp [h]

theorem prios_old_filter_nodup {store : List Client} {tgt : Client}
    (hdold : laneDense (lane store tgt.status)) :
    (prios ((sameOldOf store tgt).filter (fun d => d.id != tgt.id))).Nodup := by
  have h1 : (prios (lane store tgt.status)).Nodup := laneDense_prios_nodup hdold
  have h2 : ((sameOldOf store tgt).filter (fun d => d.id != tgt.id)).Sublist
      (sameOldOf store tgt) := List.filter_sublist _
  have h3 := h2.map (·.priority)
  rw [sameOldOf_eq_lane] at h3
  exact h3.nodup h1

theorem countLt_snoc (l : List Client) (t : Client) (q : ℚ) :
    countLt (l ++ [t]) q = countLt l q + (if t.priority < q then 1 else 0) := by
  rw [countLt_append]
  unfold countLt
  rw [List.countP_cons, List.countP_nil]
  by_cases h : t.priority < q <;> simp [h]

theorem prios_snoc_nodup {l : List Client} {t : Client}
    (h : (prios l).Nodup) (ht : t.priority ∉ prios l) :
    (prios (l ++ [t])).Nodup := by
  simp only [prios, List.map_append, List.map_cons, List.map_nil]
  rw [List.nodup_append]
  refine ⟨h, List.nodup_singleton _, ?_⟩
  intro x hx hx2
  have : x = t.priority := by simpa using hx2
  subst this
  exact ht hx

theorem laneDense_priority_le {l : List Client} (h : laneDense l) {c : Client}
    (hc : c ∈ l) : c.priority ≤ (l.length : ℚ) := by
  rcases laneDense_mem h hc with ⟨j, hj, hp⟩
  have : (j : ℚ) + 1 ≤ (l.length : ℚ) := by exact_mod_cast hj
  rw [hp]
  exact this

theorem moveTarget_none (tgt : Client) (ns : Option String) :
    moveTarget tgt ns none
      = { tgt with status := ns, priority := MAX_SAFE_INTEGER } := rfl

theorem moveTarget_nat (tgt : Client) (ns : Option String) {P : ℕ} (hP : P ≠ 0) :
    moveTarget tgt ns (some (P : ℚ))
      = { tgt with status := ns, priority := (P : ℚ) - 1/2 } := by
  unfold moveTarget
  have h1 : priorityTruthy (some (P : ℚ)) = true := by
    simp [priorityTruthy, hP]
  rw [h1]
  simp

theorem old_lane_new_priority {store : List Client} {tgt c : Client}
    (hid : idsNodup store) (htgt : tgt ∈ store)
    (hdold : laneDense (lane store tgt.status))
    (hc : c ∈ store) (hcs : c.status = tgt.status) (hcid : c.id ≠ tgt.id) :
    (1 : ℚ) + (countLt ((sameOldOf store tgt).filter (fun d => d.id != tgt.id))
        c.priority : ℚ)
      = if c.priority < tgt.priority then c.priority else c.priority - 1 := by
  set L := lane store tgt.status with hL
  have hidL : idsNodup L := idsNodup_filter _ hid
  have htgtL : tgt ∈ L := List.mem_filter.mpr ⟨htgt, by simp⟩
  have hcL : c ∈ L := List.mem_filter.mpr ⟨hc, by simp [hcs]⟩
  have hperm : L.Perm (tgt :: L.filter (fun d => d.id != tgt.id)) :=
    perm_cons_filter_id hidL htgtL
  have hcount : countLt L c.priority
      = countLt (L.filter (fun d => d.id != tgt.id)) c.priority
        + (if tgt.priority < c.priority then 1 else 0) := by
    rw [countLt_of_perm hperm]
    unfold countLt
    rw [List.countP_cons]
    by_cases h : tgt.priority < c.priority <;> simp [h]
  have hmem : (1 : ℚ) + (countLt L c.priority : ℚ) = c.priority :=
    laneDense_countLt_mem hdold hcL
  have hne : tgt.priority ≠ c.priority := by
    intro hEq
    have : tgt = c :=
      List.inj_on_of_nodup_map (laneDense_prios_nodup hdold) htgtL hcL hEq
    exact hcid (this ▸ rfl)
  rw [sameOldOf_eq_lane, ← hL]
  by_cases hlt : c.priority < tgt.priority
  · have hite : (if tgt.priority < c.priority then 1 else 0) = 0 := by
      rw [if_neg (not_lt.mpr (le_of_lt hlt))]
    rw [hite, Nat.add_zero] at hcount
    rw [if_pos hlt, ← hcount]
    exact hmem
  · have hlt2 : tgt.priority < c.priority :=
      lt_of_le_of_ne (not_lt.mp hlt) hne
    have hite : (if tgt.priority < c.priority then 1 else 0) = 1 := if_pos hlt2
    rw [hite] at hcount
    rw [if_neg hlt]
    have hq : (countLt L c.priority : ℚ)
        = (countLt (L.filter (fun d => d.id != tgt.id)) c.priority : ℚ) + 1 := by
      exact_mod_cast hcount
    linarith [hmem, hq]

/-! ### Claim theorems -/

/-- C5: for every lane-change request (requested status differs from the
target's current status) with the requested priority omitted, the target is
removed from its old lane, the old lane's remaining members are renumbered
densely 1..n-1 preserving their relative order (each keeps its priority if
it was above the target, and moves up one slot otherwise), and the target
is appended last in the new lane, receiving rank equal to the new lane
size, while each previous member of the new lane keeps its priority. -/
theorem lane_change_append_spec
    (store : List Client) (tid : Int) (tgt : Client) (ns : String)
    (hid : idsNodup store)
    (ht : lookupId store tid = some tgt)
    (hns : some ns ≠ tgt.status)
    (hdold : laneDense (lane store tgt.status))
    (hdnew : laneDense (lane store (some ns)))
    (hsize : (lane store (some ns)).length + 1 < 9007199254740991) :
    lookupId (reorderCore store tgt (some ns) none).clients tid
        = some { tgt with
                 status := some ns,
                 priority := ((lane store (some ns)).length : ℚ) + 1 }
    ∧ (∀ c ∈ store, c.status = some ns →
        lookupId (reorderCore store tgt (some ns) none).clients c.id = some c)
    ∧ (∀ c ∈ store, c.status = tgt.status → c.id ≠ tid →
        lookupId (reorderCore store tgt (some ns) none).clients c.id
          = some { c with priority :=
              if c.priority < tgt.priority then c.priority else c.priority - 1 }) := by
  have htgt : tgt ∈ store := List.mem_of_find?_eq_some ht
  have htid : tgt.id = tid := by simpa using List.find?_some ht
  subst htid
  have hsame : sameNewOf store tgt (some ns) = lane store (some ns) :=
    sameNewOf_eq_lane hns
  set m := (lane store (some ns)).length with hm
  have hmlt : (m : ℚ) < MAX_SAFE_INTEGER := by
    unfold MAX_SAFE_INTEGER
    exact_mod_cast (by omega : m < 9007199254740991)
  have hmtp : (moveTarget tgt (some ns) none).priority = MAX_SAFE_INTEGER := rfl
  have hpNew :
      (prios (sameNewOf store tgt (some ns)
        ++ [moveTarget tgt (some ns) none])).Nodup := by
    refine prios_snoc_nodup ?_ ?_
    · rw [hsame]
      exact laneDense_prios_nodup hdnew
    · rw [hsame, hmtp]
      intro hmem
      rcases List.mem_map.mp hmem with ⟨e, he, hEq⟩
      have hle := laneDense_priority_le hdnew he
      rw [hEq] at hle
      exact absurd hle (not_le.mpr hmlt)
  refine ⟨?_, ?_, ?_⟩
  · rw [case2_lookup_target none hid htgt hns hpNew]
    have h1 : countLt (sameNewOf store tgt (some ns)
        ++ [moveTarget tgt (some ns) none]) (moveTarget tgt (some ns) none).priority
        = m := by
      rw [countLt_snoc, hmtp, if_neg (lt_irrefl _), Nat.add_zero, hsame]
      exact laneDense_countLt_ge hdnew hmlt
    rw [h1]
    have h2 : (1 : ℚ) + (m : ℚ) = (m : ℚ) + 1 := by ring
    rw [h2]
  · intro c hc hcs
    rw [case2_lookup_new none hid htgt hns hpNew hc hcs]
    have hcLane : c ∈ lane store (some ns) :=
      List.mem_filter.mpr ⟨hc, by simp [hcs]⟩
    have hcle : c.priority ≤ (m : ℚ) := laneDense_priority_le hdnew hcLane
    have h1 : countLt (sameNewOf store tgt (some ns)
        ++ [moveTarget tgt (some ns) none]) c.priority
        = countLt (lane store (some ns)) c.priority := by
      rw [countLt_snoc, hmtp, if_neg (not_lt.mpr (le_trans hcle (le_of_lt hmlt))),
        Nat.add_zero, hsame]
    rw [h1, laneDense_countLt_mem hdnew hcLane]
  · intro c hc hcs hcid
    rw [case2_lookup_old none hid hns (prios_old_filter_nodup hdold) hc hcs hcid]
    rw [old_lane_new_priority hid htgt hdold hc hcs hcid]

/-- Scenario B and C starting state of the spec: lane "backlog" has A(1),
B(2); lane "in-progress" has X(1). -/
def scenarioStore : List Client :=
  [⟨1, "A", "", some "backlog", 1⟩, ⟨2, "B", "", some "backlog", 2⟩,
   ⟨3, "X", "", some "in-progress", 1⟩]

/-- Witness for C5: Scenario B.  Moving A to "in-progress" with no priority
gives backlog B=1 and in-progress X=1, A=2. -/
theorem lane_change_append_spec_witness :
    (idsNodup scenarioStore
      ∧ lookupId scenarioStore 1 = some ⟨1, "A", "", some "backlog", 1⟩
      ∧ some "in-progress" ≠ (⟨1, "A", "", some "backlog", 1⟩ : Client).status
      ∧ laneDense (lane scenarioStore (⟨1, "A", "", some "backlog", 1⟩ : Client).status)
      ∧ laneDense (lane scenarioStore (some "in-progress"))
      ∧ (lane scenarioStore (some "in-progress")).length + 1 < 9007199254740991)
    ∧ (lookupId (reorderCore scenarioStore ⟨1, "A", "", some "backlog", 1⟩
          (some "in-progress") none).clients 1
        = some { (⟨1, "A", "", some "backlog", 1⟩ : Client) with
                 status := some "in-progress",
                 priority := ((lane scenarioStore (some "in-progress")).length : ℚ) + 1 }
      ∧ (∀ c ∈ scenarioStore, c.status = some "in-progress" →
          lookupId (reorderCore scenarioStore ⟨1, "A", "", some "backlog", 1⟩
            (some "in-progress") none).clients c.id = some c)
      ∧ (∀ c ∈ scenarioStore, c.status = (⟨1, "A", "", some "backlog", 1⟩ : Client).status →
          c.id ≠ 1 →
          lookupId (reorderCore scenarioStore ⟨1, "A", "", some "backlog", 1⟩
            (some "in-progress") none).clients c.id
            = some { c with priority :=
                if c.priority < (⟨1, "A", "", some "backlog", 1⟩ : Client).priority
                then c.priority else c.priority - 1 })) :=
  ⟨⟨by decide, by decide, by decide, by with_unfolding_all decide,
    by with_unfolding_all decide, by decide⟩,
   lane_change_append_spec scenarioStore 1 ⟨1, "A", "", some "backlog", 1⟩ "in-progress"
     (by decide) (by decide) (by decide) (by with_unfolding_all decide)
     (by with_unfolding_all decide) (by decide)⟩

/-- C6: for every lane-change request carrying an explicit requested
priority P with 1 ≤ P ≤ size of the destination lane, the target is
inserted immediately before the member currently holding priority P (the
target receives P, members at P and below move down one), the new lane is
renumbered densely, and the old lane is renumbered densely as in the
append case. -/
theorem lane_change_insert_spec
    (store : List Client) (tid : Int) (tgt : Client) (ns : String) (P : ℕ)
    (hid : idsNodup store)
    (ht : lookupId store tid = some tgt)
    (hns : some ns ≠ tgt.status)
    (hdold : laneDense (lane store tgt.status))
    (hdnew : laneDense (lane store (some ns)))
    (hP1 : 1 ≤ P) (hP2 : P ≤ (lane store (some ns)).length) :
    lookupId (reorderCore store tgt (some ns) (some (P : ℚ))).clients tid
        = some { tgt with status := some ns, priority := (P : ℚ) }
    ∧ (∀ c ∈ store, c.status = some ns →
        lookupId (reorderCore store tgt (some ns) (some (P : ℚ))).clients c.id
          = some { c with priority :=
              if c.priority < (P : ℚ) then c.priority else c.priority + 1 })
    ∧ (∀ c ∈ store, c.status = tgt.status → c.id ≠ tid →
        lookupId (reorderCore store tgt (some ns) (some (P : ℚ))).clients c.id
          = some { c with priority :=
              if c.priority < tgt.priority then c.priority else c.priority - 1 }) := by
  have htgt : tgt ∈ store := List.mem_of_find?_eq_some ht
  have htid : tgt.id = tid := by simpa using List.find?_some ht
  subst htid
  have hP0 : P ≠ 0 := by omega
  have hsame : sameNewOf store tgt (some ns) = lane store (some ns) :=
    sameNewOf_eq_lane hns
  set m := (lane store (some ns)).length with hm
  have hmtp : (moveTarget tgt (some ns) (some (P : ℚ))).priority = (P : ℚ) - 1/2 := by
    rw [moveTarget_nat tgt (some ns) hP0]
  have hpNew :
      (prios (sameNewOf store tgt (some ns)
        ++ [moveTarget tgt (some ns) (some (P : ℚ))])).Nodup := by
    refine prios_snoc_nodup ?_ ?_
    · rw [hsame]
      exact laneDense_prios_nodup hdnew
    · rw [hsame, hmtp]
      intro hmem
      rcases List.mem_map.mp hmem with ⟨e, he, hEq⟩
      rcases laneDense_mem hdnew he with ⟨j, _, hj⟩
      rw [hj] at hEq
      exact half_ne_add_one P j hEq
  refine ⟨?_, ?_, ?_⟩
  · rw [case2_lookup_target (some (P : ℚ)) hid htgt hns hpNew]
    have h1 : countLt (sameNewOf store tgt (some ns)
        ++ [moveTarget tgt (some ns) (some (P : ℚ))])
        (moveTarget tgt (some ns) (some (P : ℚ))).priority = P - 1 := by
      rw [countLt_snoc, if_neg (lt_irrefl _), Nat.add_zero, hsame, hmtp,
        laneDense_countLt_half hdnew, ← hm]
      omega
    rw [h1]
    have h2 : (1 : ℚ) + ((P - 1 : ℕ) : ℚ) = (P : ℚ) := by
      rw [Nat.cast_sub hP1]
      push_cast
      ring
    rw [h2]
  · intro c hc hcs
    rw [case2_lookup_new (some (P : ℚ)) hid htgt hns hpNew hc hcs]
    have hcLane : c ∈ lane store (some ns) :=
      List.mem_filter.mpr ⟨hc, by simp [hcs]⟩
    rcases laneDense_mem hdnew hcLane with ⟨j, hjm, hj⟩
    have hmem2 : (1 : ℚ) + (countLt (lane store (some ns)) c.priority : ℚ)
        = c.priority := laneDense_countLt_mem hdnew hcLane
    by_cases hlt : c.priority < (P : ℚ)
    · have hjP : j + 1 < P := by
        rw [hj] at hlt
        exact_mod_cast hlt
      have hite : ¬(moveTarget tgt (some ns) (some (P : ℚ))).priority < c.priority := by
        rw [hmtp, hj]
        have : (j : ℚ) + 2 ≤ (P : ℚ) := by exact_mod_cast (by omega : j + 2 ≤ P)
        intro hcon
        linarith
      have h1 : countLt (sameNewOf store tgt (some ns)
          ++ [moveTarget tgt (some ns) (some (P : ℚ))]) c.priority
          = countLt (lane store (some ns)) c.priority := by
        rw [countLt_snoc, if_neg hite, Nat.add_zero, hsame]
      rw [h1, hmem2, if_pos hlt]
    · have hjP : P ≤ j + 1 := by
        rw [hj] at hlt
        exact_mod_cast not_lt.mp hlt
      have hite : (moveTarget tgt (some ns) (some (P : ℚ))).priority < c.priority := by
        rw [hmtp, hj]
        have : (P : ℚ) ≤ (j : ℚ) + 1 := by exact_mod_cast hjP
        linarith
      have h1 : countLt (sameNewOf store tgt (some ns)
          ++ [moveTarget tgt (some ns) (some (P : ℚ))]) c.priority
          = countLt (lane store (some ns)) c.priority + 1 := by
        rw [countLt_snoc, if_pos hite, hsame]
      rw [h1, if_neg hlt]
      have h2 : (1 : ℚ) + ((countLt (lane store (some ns)) c.priority + 1 : ℕ) : ℚ)
          = c.priority + 1 := by
        push_cast
        push_cast at hmem2
        linarith
      rw [h2]
  · intro c hc hcs hcid
    rw [case2_lookup_old (some (P : ℚ)) hid hns (prios_old_filter_nodup hdold) hc hcs hcid]
    rw [old_lane_new_priority hid htgt hdold hc hcs hcid]

/-- Witness for C6: Scenario C.  Moving A to "in-progress" with priority 1
gives backlog B=1 and in-progress A=1, X=2. -/
theorem lane_change_insert_spec_witness :
    (idsNodup scenarioStore
      ∧ lookupId scenarioStore 1 = some ⟨1, "A", "", some "backlog", 1⟩
      ∧ some "in-progress" ≠ (⟨1, "A", "", some "backlog", 1⟩ : Client).status
      ∧ laneDense (lane scenarioStore (⟨1, "A", "", some "backlog", 1⟩ : Client).status)
      ∧ laneDense (lane scenarioStore (some "in-progress"))
      ∧ 1 ≤ 1 ∧ 1 ≤ (lane scenarioStore (some "in-progress")).length)
    ∧ (lookupId (reorderCore scenarioStore ⟨1, "A", "", some "backlog", 1⟩
          (some "in-progress") (some ((1 : ℕ) : ℚ))).clients 1
        = some { (⟨1, "A", "", some "backlog", 1⟩ : Client) with
                 status := some "in-progress",
                 priority := ((1 : ℕ) : ℚ) }
      ∧ (∀ c ∈ scenarioStore, c.status = some "in-progress" →
          lookupId (reorderCore scenarioStore ⟨1, "A", "", some "backlog", 1⟩
            (some "in-progress") (some ((1 : ℕ) : ℚ))).clients c.id
            = some { c with priority :=
                if c.priority < ((1 : ℕ) : ℚ) then c.priority else c.priority + 1 })
      ∧ (∀ c ∈ scenarioStore, c.status = (⟨1, "A", "", some "backlog", 1⟩ : Client).status →
          c.id ≠ 1 →
          lookupId (reorderCore scenarioStore ⟨1, "A", "", some "backlog", 1⟩
            (some "in-progress") (some ((1 : ℕ) : ℚ))).clients c.id
            = some { c with priority :=
                if c.priority < (⟨1, "A", "", some "backlog", 1⟩ : Client).priority
                then c.priority else c.priority - 1 })) :=
  ⟨⟨by decide, by decide, by decide, by with_unfolding_all decide,
    by with_unfolding_all decide, by decide, by decide⟩,
   lane_change_insert_spec scenarioStore 1 ⟨1, "A", "", some "backlog", 1⟩ "in-progress" 1
     (by decide) (by decide) (by decide) (by with_unfolding_all decide)
     (by with_unfolding_all decide) (by decide) (by decide)⟩

/-! ### The other two branches of `reorderCore`, and the frame property -/

theorem reorderCore_clients_case1 (store : List Client) (tgt : Client)
    (rs : Option String) (rp : Option ℚ)
    (h1 : tgt.status = rs)
    (h2 : (priorityTruthy rp && (rp != some tgt.priority)) = true) :
    (reorderCore store tgt rs rp).clients
      = store.map (applyById (renumber (sortByPriority
          (sameNewOf store tgt rs ++ [{ tgt with priority := rp.getD 0 - 1/2 }])))) := by
  have hbeq : (tgt.status == rs) = true := beq_iff_eq.mpr h1
  unfold reorderCore sameNewOf
  simp [hbeq, h2]

theorem reorderCore_clients_noop (store : List Client) (tgt : Client)
    (rs : Option String) (rp : Option ℚ)
    (h1 : tgt.status = rs)
    (h2 : (priorityTruthy rp && (rp != some tgt.priority)) = false) :
    (reorderCore store tgt rs rp).clients = store := by
  have hbeq : (tgt.status == rs) = true := beq_iff_eq.mpr h1
  unfold reorderCore
  simp [hbeq, h2]
  rw [if_pos h1]

/-- A client in neither the old nor the requested lane is never looked up
by any renumbered lane entry, hence keeps its exact record. -/
theorem reorder_untouched {store : List Client} {tgt c : Client}
    (rs : Option String) (rp : Option ℚ)
    (hid : idsNodup store) (htgt : tgt ∈ store)
    (hc : c ∈ store) (h1 : c.status ≠ tgt.status) (h2 : c.status ≠ rs) :
    lookupId (reorderCore store tgt rs rp).clients c.id = some c := by
  have hcne : c ≠ tgt := fun h => h1 (h ▸ rfl)
  have hcidne : c.id ≠ tgt.id := fun h => hcne (idsNodup_inj hid hc htgt h)
  by_cases hst : tgt.status = rs
  · by_cases hsr : (priorityTruthy rp && (rp != some tgt.priority)) = true
    · rw [reorderCore_clients_case1 store tgt rs rp hst hsr]
      rw [lookupId_map_eq_some _ hid (applyById_id _) hc]
      have hnone : List.find? (fun d => d.id == c.id)
          (renumber (sortByPriority
            (sameNewOf store tgt rs ++ [{ tgt with priority := rp.getD 0 - 1/2 }])))
          = none := by
        refine List.find?_eq_none.mpr (fun d hd => ?_)
        rcases mem_renumber_sort hd with ⟨e, he, hde, _⟩
        simp only [beq_iff_eq]
        intro hEq
        rcases List.mem_append.mp he with heN | heT
        · rcases List.mem_filter.mp heN with ⟨he3, he4⟩
          have hes : e.status = rs := by
            have := (Bool.and_eq_true _ _).mp he4
            simpa using this.2
          have : e = c := idsNodup_inj hid he3 hc (hde ▸ hEq)
          subst this
          exact h2 hes
        · have : e = { tgt with priority := rp.getD 0 - 1/2 } :=
            List.mem_singleton.mp heT
          subst this
          exact hcidne (hEq ▸ hde.symm).symm
      unfold applyById
      rw [hnone]
      rfl
    · rw [reorderCore_clients_noop store tgt rs rp hst
        (Bool.not_eq_true _ ▸ (by simpa using hsr))]
      exact lookupId_eq_self hid hc
  · have hns : rs ≠ tgt.status := fun h => hst h.symm
    rw [reorderCore_clients_case2 store tgt rs rp hns]
    rw [lookupId_map_eq_some _ hid (applyById_id _) hc]
    have hnoneOld : List.find? (fun d => d.id == c.id) (oldLaneOf store tgt) = none := by
      refine List.find?_eq_none.mpr (fun d hd => ?_)
      rcases mem_renumber_sort hd with ⟨e, he, hde, _⟩
      rcases List.mem_filter.mp he with ⟨he2, _⟩
      rcases List.mem_filter.mp he2 with ⟨he3, he4⟩
      simp only [beq_iff_eq]
      intro hEq
      have heq : e = c := idsNodup_inj hid he3 hc (hde ▸ hEq)
      subst heq
      exact h1 (by simpa using he4)
    have hnoneNew : List.find? (fun d => d.id == c.id)
        (newLaneOf store tgt rs rp) = none := by
      refine List.find?_eq_none.mpr (fun d hd => ?_)
      rcases mem_renumber_sort hd with ⟨e, he, hde, _⟩
      simp only [beq_iff_eq]
      intro hEq
      rcases List.mem_append.mp he with heN | heT
      · rcases List.mem_filter.mp heN with ⟨he3, he4⟩
        have hes : e.status = rs := by
          have := (Bool.and_eq_true _ _).mp he4
          simpa using this.2
        have : e = c := idsNodup_inj hid he3 hc (hde ▸ hEq)
        subst this
        exact h2 hes
      · have : e = moveTarget tgt rs rp := List.mem_singleton.mp heT
        subst this
        exact hcidne (hEq ▸ hde.symm).symm
    unfold applyById
    rw [List.find?_append, hnoneOld, Option.none_or, hnoneNew]
    rfl

/-- C8: for every invocation of the reordering engine, every client whose
status is neither the target's old lane nor the requested new lane is
untouched: its record in the returned list equals its input record. -/
theorem reorder_frame_spec
    (store : List Client) (tid : Int) (tgt c : Client)
    (rs : Option String) (rp : Option ℚ)
    (hid : idsNodup store)
    (ht : lookupId store tid = some tgt)
    (hc : c ∈ store) (h1 : c.status ≠ tgt.status) (h2 : c.status ≠ rs) :
    lookupId (reorderCore store tgt rs rp).clients c.id = some c :=
  reorder_untouched rs rp hid (List.mem_of_find?_eq_some ht) hc h1 h2

/-- Witness for C8: a "complete" client is untouched when a client moves
from "backlog" to "in-progress". -/
theorem reorder_frame_spec_witness :
    (idsNodup [⟨1, "A", "", some "backlog", 1⟩, ⟨2, "D", "", some "complete", 1⟩]
      ∧ lookupId [⟨1, "A", "", some "backlog", 1⟩, ⟨2, "D", "", some "complete", 1⟩] 1
          = some ⟨1, "A", "", some "backlog", 1⟩
      ∧ (⟨2, "D", "", some "complete", 1⟩ : Client)
          ∈ [⟨1, "A", "", some "backlog", 1⟩, ⟨2, "D", "", some "complete", 1⟩]
      ∧ (⟨2, "D", "", some "complete", 1⟩ : Client).status
          ≠ (⟨1, "A", "", some "backlog", 1⟩ : Client).status
      ∧ (⟨2, "D", "", some "complete", 1⟩ : Client).status ≠ some "in-progress")
    ∧ lookupId (reorderCore
        [⟨1, "A", "", some "backlog", 1⟩, ⟨2, "D", "", some "complete", 1⟩]
        ⟨1, "A", "", some "backlog", 1⟩ (some "in-progress") none).clients
        (⟨2, "D", "", some "complete", 1⟩ : Client).id
      = some ⟨2, "D", "", some "complete", 1⟩ :=
  ⟨⟨by decide, by decide, by decide, by decide, by decide⟩,
   reorder_frame_spec
     [⟨1, "A", "", some "backlog", 1⟩, ⟨2, "D", "", some "complete", 1⟩] 1
     ⟨1, "A", "", some "backlog", 1⟩ ⟨2, "D", "", some "complete", 1⟩
     (some "in-progress") none
     (by decide) (by decide) (by decide) (by decide) (by decide)⟩

/-- C9: for every invocation of the reordering engine, the returned client
list has the same length as the input list and exactly the same ids, in
the same order: no client is created, duplicated, or dropped. -/
theorem reorder_conservation_spec (store : List Client) (tgt : Client)
    (rs : Option String) (rp : Option ℚ) :
    (reorderCore store tgt rs rp).clients.map (·.id) = store.map (·.id)
    ∧ (reorderCore store tgt rs rp).clients.length = store.length := by
  have key : ∀ u : List Client,
      (store.map (applyById u)).map (·.id) = store.map (·.id) := by
    intro u
    rw [List.map_map]
    exact List.map_congr_left (fun c _ => applyById_id u c)
  by_cases hst : tgt.status = rs
  · by_cases hsr : (priorityTruthy rp && (rp != some tgt.priority)) = true
    · rw [reorderCore_clients_case1 store tgt rs rp hst hsr]
      exact ⟨key _, List.length_map _ _⟩
    · rw [reorderCore_clients_noop store tgt rs rp hst
        (Bool.not_eq_true _ ▸ (by simpa using hsr))]
      exact ⟨rfl, rfl⟩
  · rw [reorderCore_clients_case2 store tgt rs rp (fun h => hst h.symm)]
    exact ⟨key _, List.length_map _ _⟩

/-! ### Output-lane characterization for the clamp claim -/

theorem filter_map_eq {f : Client → Client} {p : Client → Bool} (l : List Client) :
    (l.map f).filter p = (l.filter (fun c => p (f c))).map f := by
  induction l with
  | nil => rfl
  | cons a t ih =>
    by_cases h : p (f a) = true <;>
      simp [List.filter_cons, h, ih]

theorem perm_filter_or_id {l : List Client} {tgt : Client} {p : Client → Bool}
    (hid : idsNodup l) (htgt : tgt ∈ l) (hp : p tgt = false) :
    (l.filter (fun c => p c || c.id == tgt.id)).Perm (tgt :: l.filter p) := by
  induction l with
  | nil => cases htgt
  | cons a t ih =>
    have h' : (∀ y ∈ t, ¬y.id = a.id) ∧ (t.map (·.id)).Nodup := by
      simpa [idsNodup] using hid
    rcases List.mem_cons.mp htgt with rfl | ht
    · have hcong : t.filter (fun c => p c || c.id == tgt.id) = t.filter p := by
        refine List.filter_congr (fun c hc => ?_)
        have : (c.id == tgt.id) = false :=
          beq_eq_false_iff_ne.mpr (fun hEq => (h'.1 c hc) hEq)
        simp [this]
      have h1 : List.filter (fun c => p c || c.id == tgt.id) (tgt :: t)
          = tgt :: List.filter p t := by
        rw [List.filter_cons, if_pos (by simp [hp]), hcong]
      have h2 : List.filter p (tgt :: t) = List.filter p t := by
        rw [List.filter_cons, if_neg (by simp [hp])]
      rw [h1, h2]
    · have hne : (a.id == tgt.id) = false := by
        refine beq_eq_false_iff_ne.mpr (fun hEq => ?_)
        exact (h'.1 tgt ht) hEq.symm
      have hstep := ih h'.2 ht
      rw [List.filter_cons, List.filter_cons]
      by_cases hpa : p a = true
      · have h1 : (p a || a.id == tgt.id) = true := by simp [hpa]
        rw [h1, if_pos rfl, if_pos hpa]
        exact (hstep.cons a).trans (List.Perm.swap tgt a _)
      · have hpaf : p a = false := by simpa using hpa
        have h1 : (p a || a.id == tgt.id) = false := by simp [hpaf, hne]
        rw [h1]
        simp only [Bool.false_eq_true, if_neg, hpaf]
        exact hstep
  
theorem applyById_cases (u : List Client) (c : Client) :
    applyById u c = c ∨ ∃ d ∈ u, d.id = c.id ∧ applyById u c = d := by
  unfold applyById
  cases hf : u.find? (fun d => d.id == c.id) with
  | none => exact Or.inl rfl
  | some d =>
    exact Or.inr ⟨d, List.mem_of_find?_eq_some hf,
      by simpa using List.find?_some hf, rfl⟩

theorem mem_oldLaneOf_status {store : List Client} {tgt : Client} {d : Client}
    (hd : d ∈ oldLaneOf store tgt) :
    d.status = tgt.status
      ∧ ∃ e ∈ store, d.id = e.id ∧ e.status = tgt.status ∧ e.id ≠ tgt.id := by
  rcases mem_renumber_sort hd with ⟨e, he, hde, hst⟩
  rcases List.mem_filter.mp he with ⟨he2, he4⟩
  rcases List.mem_filter.mp he2 with ⟨he3, he5⟩
  have hes : e.status = tgt.status := by simpa using he5
  exact ⟨hst.trans hes, e, he3, hde, hes, by simpa using he4⟩

theorem mem_newLaneOf_status {store : List Client} {tgt : Client}
    {ns : Option String} {rp : Option ℚ} {d : Client}
    (hd : d ∈ newLaneOf store tgt ns rp) :
    d.status = ns ∧ (d.id = tgt.id ∨ ∃ e ∈ store, d.id = e.id ∧ e.status = ns) := by
  rcases mem_renumber_sort hd with ⟨e, he, hde, hst⟩
  rcases List.mem_append.mp he with heN | heT
  · rcases List.mem_filter.mp heN with ⟨he3, he4⟩
    have hes : e.status = ns := by
      have := (Bool.and_eq_true _ _).mp he4
      simpa using this.2
    exact ⟨hst.trans hes, Or.inr ⟨e, he3, hde, hes⟩⟩
  · have heq : e = moveTarget tgt ns rp := List.mem_singleton.mp heT
    subst heq
    exact ⟨hst, Or.inl hde⟩

/-- C10: for every lane-change request whose requested priority P is
strictly greater than the destination lane size plus one, the moved client
is placed last in the destination lane (rank = new lane size), every
previous destination member keeps its exact record, and the destination
lane of the output is still densely numbered 1..n: the out-of-range
priority is silently clamped to the end of the lane. -/
theorem lane_change_clamp_spec
    (store : List Client) (tid : Int) (tgt : Client) (ns : String) (P : ℕ)
    (hid : idsNodup store)
    (ht : lookupId store tid = some tgt)
    (hns : some ns ≠ tgt.status)
    (hdnew : laneDense (lane store (some ns)))
    (hP : (lane store (some ns)).length + 1 < P) :
    lookupId (reorderCore store tgt (some ns) (some (P : ℚ))).clients tid
        = some { tgt with
                 status := some ns,
                 priority := ((lane store (some ns)).length : ℚ) + 1 }
    ∧ (∀ c ∈ store, c.status = some ns →
        lookupId (reorderCore store tgt (some ns) (some (P : ℚ))).clients c.id
          = some c)
    ∧ laneDense ((reorderCore store tgt (some ns) (some (P : ℚ))).clients.filter
        (fun c => c.status == some ns)) := by
  have htgt : tgt ∈ store := List.mem_of_find?_eq_some ht
  have htid : tgt.id = tid := by simpa using List.find?_some ht
  subst htid
  have hP0 : P ≠ 0 := by omega
  have hsame : sameNewOf store tgt (some ns) = lane store (some ns) :=
    sameNewOf_eq_lane hns
  set m := (lane store (some ns)).length with hm
  have hmtp : (moveTarget tgt (some ns) (some (P : ℚ))).priority = (P : ℚ) - 1/2 := by
    rw [moveTarget_nat tgt (some ns) hP0]
  have hPm : (m : ℚ) < (P : ℚ) - 1/2 := by
    have h1 : (m + 2 : ℕ) ≤ P := by omega
    have h2 : (m : ℚ) + 2 ≤ (P : ℚ) := by exact_mod_cast h1
    linarith
  have hpNew : (prios (sameNewOf store tgt (some ns)
      ++ [moveTarget tgt (some ns) (some (P : ℚ))])).Nodup := by
    refine prios_snoc_nodup ?_ ?_
    · rw [hsame]
      exact laneDense_prios_nodup hdnew
    · rw [hsame, hmtp]
      intro hmem
      rcases List.mem_map.mp hmem with ⟨e, he, hEq⟩
      rcases laneDense_mem hdnew he with ⟨j, _, hj⟩
      rw [hj] at hEq
      exact half_ne_add_one P j hEq
  have htgtLook :
      lookupId (reorderCore store tgt (some ns) (some (P : ℚ))).clients tgt.id
        = some { tgt with status := some ns, priority := (m : ℚ) + 1 } := by
    rw [case2_lookup_target (some (P : ℚ)) hid htgt hns hpNew]
    have h1 : countLt (sameNewOf store tgt (some ns)
        ++ [moveTarget tgt (some ns) (some (P : ℚ))])
        (moveTarget tgt (some ns) (some (P : ℚ))).priority = m := by
      rw [countLt_snoc, if_neg (lt_irrefl _), Nat.add_zero, hsame, hmtp,
        laneDense_countLt_half hdnew, ← hm]
      omega
    rw [h1]
    have h2 : (1 : ℚ) + (m : ℚ) = (m : ℚ) + 1 := by ring
    rw [h2]
  have hdest : ∀ c ∈ store, c.status = some ns →
      lookupId (reorderCore store tgt (some ns) (some (P : ℚ))).clients c.id
        = some c := by
    intro c hc hcs
    rw [case2_lookup_new (some (P : ℚ)) hid htgt hns hpNew hc hcs]
    have hcLane : c ∈ lane store (some ns) :=
      List.mem_filter.mpr ⟨hc, by simp [hcs]⟩
    have hcle : c.priority ≤ (m : ℚ) := laneDense_priority_le hdnew hcLane
    have h1 : countLt (sameNewOf store tgt (some ns)
        ++ [moveTarget tgt (some ns) (some (P : ℚ))]) c.priority
        = countLt (lane store (some ns)) c.priority := by
      rw [countLt_snoc, hmtp, if_neg (by intro h; linarith), Nat.add_zero, hsame]
    rw [h1, laneDense_countLt_mem hdnew hcLane]
  refine ⟨htgtLook, hdest, ?_⟩
  set U := oldLaneOf store tgt ++ newLaneOf store tgt (some ns) (some (P : ℚ)) with hU
  have hout : (reorderCore store tgt (some ns) (some (P : ℚ))).clients
      = store.map (applyById U) :=
    reorderCore_clients_case2 store tgt (some ns) (some (P : ℚ)) hns
  have hftgt : applyById U tgt
      = { tgt with status := some ns, priority := (m : ℚ) + 1 } := by
    have h1 : lookupId (store.map (applyById U)) tgt.id = some (applyById U tgt) :=
      lookupId_map_eq_some _ hid (applyById_id _) htgt
    rw [← hout] at h1
    exact Option.some.inj (h1.symm.trans htgtLook)
  have hfdest : ∀ c ∈ store, c.status = some ns → applyById U c = c := by
    intro c hc hcs
    have h1 : lookupId (store.map (applyById U)) c.id = some (applyById U c) :=
      lookupId_map_eq_some _ hid (applyById_id _) hc
    rw [← hout] at h1
    exact Option.some.inj (h1.symm.trans (hdest c hc hcs))
  have hstatus : ∀ c ∈ store,
      ((applyById U c).status == some ns)
        = (c.status == some ns || c.id == tgt.id) := by
    intro c hc
    by_cases hcid : c.id = tgt.id
    · have hceq : c = tgt := idsNodup_inj hid hc htgt hcid
      subst hceq
      rw [hftgt]
      simp
    · by_cases hcs : c.status = some ns
      · rw [hfdest c hc hcs, hcs]
        simp
      · have hfc : (applyById U c).status ≠ some ns := by
          rcases applyById_cases U c with hcc | ⟨d, hd, hdid, hcc⟩
          · rw [hcc]
            exact hcs
          · rcases List.mem_append.mp hd with hdo | hdn
            · have := (mem_oldLaneOf_status hdo).1
              rw [hcc, this]
              exact fun h => hns h.symm
            · rcases mem_newLaneOf_status hdn with ⟨_, hcase⟩
              rcases hcase with hdt | ⟨e, he, hde, hes⟩
              · exact absurd (hdid ▸ hdt.symm).symm hcid
              · have : e = c := idsNodup_inj hid he hc (hde ▸ hdid)
                subst this
                exact absurd hes hcs
        have h1 : ((applyById U c).status == some ns) = false :=
          beq_eq_false_iff_ne.mpr hfc
        have h2 : (c.status == some ns) = false := beq_eq_false_iff_ne.mpr hcs
        have h3 : (c.id == tgt.id) = false := beq_eq_false_iff_ne.mpr hcid
        rw [h1, h2, h3]
        rfl
  have hlaneOut : (store.map (applyById U)).filter (fun c => c.status == some ns)
      = (store.filter (fun c => c.status == some ns || c.id == tgt.id)).map
          (applyById U) := by
    rw [filter_map_eq]
    exact congrArg (List.map (applyById U)) (List.filter_congr hstatus)
  have hptgt : ((tgt.status == some ns) : Bool) = false :=
    beq_eq_false_iff_ne.mpr (fun h => hns h.symm)
  have hpermX :
      (store.filter (fun c => c.status == some ns || c.id == tgt.id)).Perm
        (tgt :: lane store (some ns)) :=
    perm_filter_or_id hid htgt hptgt
  have hmapLane :
      (lane store (some ns)).map (fun c => (applyById U c).priority)
        = prios (lane store (some ns)) :=
    List.map_congr_left (fun c hcL => by
      rcases List.mem_filter.mp hcL with ⟨hc, hcs⟩
      rw [hfdest c hc (by simpa using hcs)])
  have hpriosOut :
      (prios ((reorderCore store tgt (some ns) (some (P : ℚ))).clients.filter
        (fun c => c.status == some ns))).Perm (rangePrios (m + 1)) := by
    rw [hout, hlaneOut]
    have h1 : prios ((store.filter
          (fun c => c.status == some ns || c.id == tgt.id)).map (applyById U))
        = (store.filter (fun c => c.status == some ns || c.id == tgt.id)).map
            (fun c => (applyById U c).priority) := by
      simp [prios, List.map_map]
    rw [h1]
    have h2 := hpermX.map (fun c => (applyById U c).priority)
    have h3 : (tgt :: lane store (some ns)).map (fun c => (applyById U c).priority)
        = ((m : ℚ) + 1) :: prios (lane store (some ns)) := by
      rw [List.map_cons, hmapLane, hftgt]
    rw [h3] at h2
    refine h2.trans ?_
    have h4 : ((m : ℚ) + 1) :: prios (lane store (some ns))
        |>.Perm (((m : ℚ) + 1) :: rangePrios m) := hdnew.cons _
    refine h4.trans ?_
    have h5 : rangePrios (m + 1) = rangePrios m ++ [(m : ℚ) + 1] := by
      simp [rangePrios, List.range_succ]
    rw [h5]
    exact @List.perm_append_comm ℚ [(m : ℚ) + 1] (rangePrios m)
  have hlen : ((reorderCore store tgt (some ns) (some (P : ℚ))).clients.filter
      (fun c => c.status == some ns)).length = m + 1 := by
    have h1 := hpriosOut.length_eq
    simpa [prios] using h1
  show (prios _).Perm (rangePrios _)
  rw [hlen]
  exact hpriosOut

/-- Witness for C10: moving A from "backlog" into "in-progress" (current
size 1) with requested priority 7 puts A last at rank 2 and keeps the
destination lane dense. -/
theorem lane_change_clamp_spec_witness :
    (idsNodup scenarioStore
      ∧ lookupId scenarioStore 1 = some ⟨1, "A", "", some "backlog", 1⟩
      ∧ some "in-progress" ≠ (⟨1, "A", "", some "backlog", 1⟩ : Client).status
      ∧ laneDense (lane scenarioStore (some "in-progress"))
      ∧ (lane scenarioStore (some "in-progress")).length + 1 < 7)
    ∧ (lookupId (reorderCore scenarioStore ⟨1, "A", "", some "backlog", 1⟩
          (some "in-progress") (some ((7 : ℕ) : ℚ))).clients 1
        = some { (⟨1, "A", "", some "backlog", 1⟩ : Client) with
                 status := some "in-progress",
                 priority := ((lane scenarioStore (some "in-progress")).length : ℚ) + 1 }
      ∧ (∀ c ∈ scenarioStore, c.status = some "in-progress" →
          lookupId (reorderCore scenarioStore ⟨1, "A", "", some "backlog", 1⟩
            (some "in-progress") (some ((7 : ℕ) : ℚ))).clients c.id = some c)
      ∧ laneDense ((reorderCore scenarioStore ⟨1, "A", "", some "backlog", 1⟩
          (some "in-progress") (some ((7 : ℕ) : ℚ))).clients.filter
          (fun c => c.status == some "in-progress"))) :=
  ⟨⟨by decide, by decide, by decide, by with_unfolding_all decide, by decide⟩,
   lane_change_clamp_spec scenarioStore 1 ⟨1, "A", "", some "backlog", 1⟩ "in-progress" 7
     (by decide) (by decide) (by decide) (by with_unfolding_all decide) (by decide)⟩

/-- C1 (failing case): a request carrying neither a status nor a priority
is not a no-op.  `newStatus` is `undefined`, so Case 2 fires and moves the
client into an "undefined" lane: the returned set is changed. -/
theorem noop_request_mutates :
    (reorderCore [⟨1, "A", "", some "backlog", 1⟩] ⟨1, "A", "", some "backlog", 1⟩
        none none).clients
      = [⟨1, "A", "", none, 1⟩]
    ∧ (reorderCore [⟨1, "A", "", some "backlog", 1⟩] ⟨1, "A", "", some "backlog", 1⟩
        none none).clients ≠ [⟨1, "A", "", some "backlog", 1⟩] := by
  with_unfolding_all decide

/-- C2 (failing case): Scenario A.  Same-lane reprioritization of
C(priority 3) to priority 1 in backlog A(1), B(2), C(3) leaves A and B
untouched and renumbers C alone (the grouping `else if` puts no lane
member into `clientsWithSameNewStatus`): the result is A=1, B=2, C=1, not
the claimed C=1, A=2, B=3. -/
theorem same_lane_reorder_bug :
    (reorderCore [⟨1, "A", "", some "backlog", 1⟩, ⟨2, "B", "", some "backlog", 2⟩,
        ⟨3, "C", "", some "backlog", 3⟩] ⟨3, "C", "", some "backlog", 3⟩
        (some "backlog") (some 1)).clients
      = [⟨1, "A", "", some "backlog", 1⟩, ⟨2, "B", "", some "backlog", 2⟩,
         ⟨3, "C", "", some "backlog", 1⟩]
    ∧ lookupId (reorderCore [⟨1, "A", "", some "backlog", 1⟩,
        ⟨2, "B", "", some "backlog", 2⟩, ⟨3, "C", "", some "backlog", 3⟩]
        ⟨3, "C", "", some "backlog", 3⟩ (some "backlog") (some 1)).clients 1
      ≠ some ⟨1, "A", "", some "backlog", 2⟩ := by
  with_unfolding_all decide

/-- C3 (failing case): on the densely numbered input backlog X(1), Y(2),
moving Y to priority 1 within backlog yields backlog priorities [1, 1]:
the output lane is not densely numbered and two clients in the same lane
share priority 1. -/
theorem density_invariant_bug :
    laneDense (lane [⟨1, "X", "", some "backlog", 1⟩,
        ⟨2, "Y", "", some "backlog", 2⟩] (some "backlog"))
    ∧ prios (lane (reorderCore [⟨1, "X", "", some "backlog", 1⟩,
        ⟨2, "Y", "", some "backlog", 2⟩] ⟨2, "Y", "", some "backlog", 2⟩
        (some "backlog") (some 1)).clients (some "backlog")) = [1, 1]
    ∧ ¬laneDense (lane (reorderCore [⟨1, "X", "", some "backlog", 1⟩,
        ⟨2, "Y", "", some "backlog", 2⟩] ⟨2, "Y", "", some "backlog", 2⟩
        (some "backlog") (some 1)).clients (some "backlog")) := by
  with_unfolding_all decide

/-- C4 (failing case): with a store holding only client 1, a PUT for id
9999 sends the 400 "Cannot find client" response but does not return:
execution continues past `validateId` and crashes dereferencing the
missing client (`client.status` on `undefined`).  No row is written. -/
theorem unknown_id_falls_through :
    putClient [⟨1, "A", "", some "backlog", 1⟩] 9999 none none
      = { sent := [SentItem.errorSend 400
            ⟨"Invalid id provided.", "Cannot find client with that id."⟩],
          writes := [], crashed := true } := by
  with_unfolding_all decide

/-- C7 counterexample: the requested status "" is not one of the three
lanes, yet the handler signals nothing (the JavaScript truthiness test
`if (status)` skips validation for the empty string) and moves the client
into lane "": both the returned data and the store change. -/
theorem invalid_status_empty_string_cex :
    putClient [⟨1, "A", "", some "backlog", 1⟩] 1 (some "") none
      = { sent := [SentItem.okClients [⟨1, "A", "", some "", 1⟩]],
          writes := [⟨1, "A", "", some "", 1⟩], crashed := false }
    ∧ applyWrites [⟨1, "A", "", some "backlog", 1⟩] [⟨1, "A", "", some "", 1⟩]
      ≠ [⟨1, "A", "", some "backlog", 1⟩] := by
  with_unfolding_all decide

/-- C7 (amended): for every store, every id of an existing client, every
non-empty requested status that is not one of the three lane names, and
every requested priority, the handler sends only the 400 InvalidStatus
response, writes nothing, and does not crash: returned data and store are
unchanged. -/
theorem invalid_status_rejected
    (store : List Client) (id : Int) (tgt : Client) (s : String) (rp : Option ℚ)
    (ht : lookupId store id = some tgt)
    (hne : s ≠ "") (hs : s ∉ validStatuses) :
    putClient store id (some s) rp
      = { sent := [SentItem.errorSend 400
            ⟨"Invalid status provided",
             "Status can only be one of the following: [backlog | in-progress | complete]"⟩],
          writes := [], crashed := false }
    ∧ applyWrites store (putClient store id (some s) rp).writes = store := by
  have ht' : store.find? (fun c => c.id == id) = some tgt := ht
  have hval : validateId store id = none := by
    unfold validateId
    rw [ht']
  have htr : statusTruthy (some s) = true := by
    simp [statusTruthy, hne]
  have hcont : (validStatuses.contains ((some s : Option String).getD "")) = false := by
    simpa using hs
  have hmain : putClient store id (some s) rp
      = { sent := [SentItem.errorSend 400
            ⟨"Invalid status provided",
             "Status can only be one of the following: [backlog | in-progress | complete]"⟩],
          writes := [], crashed := false } := by
    unfold putClient
    simp [hval, htr, hcont]
    intro h
    exact absurd h hs
  refine ⟨hmain, ?_⟩
  rw [hmain]
  rfl

/-- Witness for the amended C7: Scenario E, requested status "done". -/
theorem invalid_status_rejected_witness :
    (lookupId [⟨1, "A", "", some "backlog", 1⟩] 1
        = some ⟨1, "A", "", some "backlog", 1⟩
      ∧ "done" ≠ "" ∧ "done" ∉ validStatuses)
    ∧ (putClient [⟨1, "A", "", some "backlog", 1⟩] 1 (some "done") none
        = { sent := [SentItem.errorSend 400
              ⟨"Invalid status provided",
               "Status can only be one of the following: [backlog | in-progress | complete]"⟩],
            writes := [], crashed := false }
      ∧ applyWrites [⟨1, "A", "", some "backlog", 1⟩]
          (putClient [⟨1, "A", "", some "backlog", 1⟩] 1 (some "done") none).writes
        = [⟨1, "A", "", some "backlog", 1⟩]) :=
  ⟨⟨by decide, by decide, by decide⟩,
   invalid_status_rejected [⟨1, "A", "", some "backlog", 1⟩] 1
     ⟨1, "A", "", some "backlog", 1⟩ "done" none (by decide) (by decide) (by decide)⟩
